import Mathlib

/-!
Verification development for the AI code-review application.

The repository parses a GitHub pull-request URL, fetches the PR diff,
runs a three-stage generative-AI review pipeline, filters the returned
findings against the line ranges actually changed by the diff, attaches
deep links (built from a SHA-1 content hash) to the surviving findings,
and can build follow-up fix prompts from per-file content snapshots.

This file gives a shallow embedding of those operations, translated from
the TypeScript sources (`utils/helpers.ts`, `App.tsx`,
`services/geminiService.ts`), and proves the stated properties about
them.  JavaScript strings are modelled as Lean `String`
(lists of characters), JavaScript numbers as `Nat` or `Int` as
appropriate, and the relevant fragment of JavaScript regular-expression
matching (unanchored leftmost search, greedy character classes, optional
groups, lazy capture with lookahead) is implemented directly for the
concrete patterns appearing in the code.
-/

/-! ## Basic string helpers -/

/-- Drops the literal character list `p` from the front of `s`, returning the
remainder, or `none` when `s` does not begin with `p`.  This models matching
a literal fragment of a JavaScript regular expression, and also the
`String.prototype.startsWith` test. -/
def dropLit : List Char → List Char → Option (List Char)
  | [], s => some s
  | _ :: _, [] => none
  | p :: ps, c :: cs => if p = c then dropLit ps cs else none

/-- Models `s.startsWith(p)` from JavaScript. -/
def strStarts (s p : String) : Bool :=
  (dropLit p.data s.data).isSome

/-- Models `s.substring(n)` from JavaScript (drop the first `n` characters). -/
def strDrop (s : String) (n : Nat) : String :=
  String.mk (s.data.drop n)

/-- Numeric value of a list of decimal digit characters; models
`parseInt(str, 10)` on a string of digits. -/
def natOfDigits (l : List Char) : Nat :=
  l.foldl (fun a c => a * 10 + (c.toNat - 48)) 0

/-- Splits a character list at every newline, keeping empty segments;
models `str.split('\n')` from JavaScript. -/
def splitNl : List Char → List (List Char)
  | [] => [[]]
  | c :: cs =>
    let r := splitNl cs
    if c = '\n' then [] :: r
    else
      match r with
      | h :: t => (c :: h) :: t
      | [] => [[c]]

/-- Models `str.split('\n')` on Lean strings. -/
def strLines (s : String) : List String :=
  (splitNl s.data).map String.mk

/-- ECMAScript index clamping used by `Array.prototype.slice`: a negative
index counts back from the end of the array, and indices are clamped to
`[0, len]`. -/
def jsSliceIdx (len : Nat) (i : Int) : Nat :=
  if i < 0 then ((len : Int) + i).toNat else min i.toNat len

/-- Models `arr.slice(s, e)` from JavaScript. -/
def jsSlice (l : List α) (s e : Int) : List α :=
  (l.take (jsSliceIdx l.length e)).drop (jsSliceIdx l.length s)

/-! ## UrlParser: `parseGitHubUrl` from `utils/helpers.ts`

The source matches the URL against the regular expression
`github\.com\/([^\/]+)\/([^\/]+)\/pull\/(\d+)` (unanchored search) and on
success returns `{owner, repo, pull_number}`.  Both `[^/]+` groups and the
`\d+` group are greedy; because each is followed in the pattern by a
character it cannot itself match, their matches are exactly the maximal
runs, so the search is deterministic. -/

structure PrData where
  owner : String
  repo : String
  pull_number : Nat
deriving DecidableEq, Repr

/-- Attempts the pattern `github\.com\/([^\/]+)\/([^\/]+)\/pull\/(\d+)`
anchored at the beginning of `cs`. -/
def ghMatchAt (cs : List Char) : Option PrData :=
  match dropLit "github.com/".data cs with
  | none => none
  | some r1 =>
    let ow := r1.takeWhile (fun c => c ≠ '/')
    if ow = [] then none
    else
      match dropLit "/".data (r1.dropWhile (fun c => c ≠ '/')) with
      | none => none
      | some r2 =>
        let rp := r2.takeWhile (fun c => c ≠ '/')
        if rp = [] then none
        else
          match dropLit "/pull/".data (r2.dropWhile (fun c => c ≠ '/')) with
          | none => none
          | some r3 =>
            let ds := r3.takeWhile Char.isDigit
            if ds = [] then none
            else some ⟨String.mk ow, String.mk rp, natOfDigits ds⟩

/-- Unanchored leftmost search for the pattern, as performed by
`String.prototype.match` on a regular expression without flags. -/
def ghSearch : List Char → Option PrData
  | [] => ghMatchAt []
  | c :: cs =>
    match ghMatchAt (c :: cs) with
    | some d => some d
    | none => ghSearch cs

/-- Models `parseGitHubUrl` from `utils/helpers.ts`. -/
def parseGitHubUrl (url : String) : Option PrData :=
  ghSearch url.data

/-! ## DiffRangeParser: `parseDiffToValidLineRanges` from `utils/helpers.ts` -/

/-- An inclusive line range in new-file coordinates; the source object is
`{ start, end }` (`end` is written `«end»` because it is a Lean keyword). -/
structure LineRange where
  start : Nat
  «end» : Nat
deriving DecidableEq, Repr

/-- The range table built by the parser: insertion-ordered key/value pairs,
modelling the JavaScript object `Record<string, LineRange[]>`. -/
abbrev RangeTable := List (String × List LineRange)

/-- Key lookup in the range table, modelling `ranges[file]` (with `none`
for `undefined`). -/
def lookupTbl : RangeTable → String → Option (List LineRange)
  | [], _ => none
  | (k, v) :: t, f => if k = f then some v else lookupTbl t f

/-- Models `ranges[file].push(r)`: appends `r` to the list stored under
`file`, leaving other keys untouched. -/
def pushRange (tbl : RangeTable) (f : String) (r : LineRange) : RangeTable :=
  tbl.map (fun e => if e.1 = f then (e.1, e.2 ++ [r]) else e)

/-- Attempts the hunk-header pattern
`@@ -\d+(?:,\d+)? \+(\d+)(?:,(\d+))? @@` anchored at the beginning of
`cs`; on success returns the captured new-start and the new-length with
the default of 1 applied when the optional length group is absent
(mirroring `match[2] ? parseInt(match[2], 10) : 1`).  Each `\d+` is
greedy and followed by a non-digit, so it matches exactly the maximal
digit run; each optional group `(?:,\d+)?` either consumes a comma and a
nonempty digit run or does not participate (backtracking cannot succeed
otherwise because the following pattern character is a space). -/
def hunkAt (cs : List Char) : Option (Nat × Nat) :=
  match dropLit "@@ -".data cs with
  | none => none
  | some r1 =>
    let d1 := r1.takeWhile Char.isDigit
    if d1 = [] then none
    else
      let r2 := r1.dropWhile Char.isDigit
      let r3? : Option (List Char) :=
        match r2 with
        | ',' :: rest =>
          let d2 := rest.takeWhile Char.isDigit
          if d2 = [] then none else some (rest.dropWhile Char.isDigit)
        | _ => some r2
      match r3? with
      | none => none
      | some r3 =>
        match dropLit " +".data r3 with
        | none => none
        | some r4 =>
          let dns := r4.takeWhile Char.isDigit
          if dns = [] then none
          else
            let r5 := r4.dropWhile Char.isDigit
            let step2? : Option (Nat × List Char) :=
              match r5 with
              | ',' :: rest =>
                let d4 := rest.takeWhile Char.isDigit
                if d4 = [] then none
                else some (natOfDigits d4, rest.dropWhile Char.isDigit)
              | _ => some (1, r5)
            match step2? with
            | none => none
            | some (nl, r6) =>
              match dropLit " @@".data r6 with
              | none => none
              | some _ => some (natOfDigits dns, nl)

/-- Unanchored leftmost search for the hunk-header pattern. -/
def hunkSearch : List Char → Option (Nat × Nat)
  | [] => hunkAt []
  | c :: cs =>
    match hunkAt (c :: cs) with
    | some r => some r
    | none => hunkSearch cs

/-- Parser state: the table built so far and the `currentFile` cursor
(`none` models the JavaScript `null`). -/
abbrev DiffState := RangeTable × Option String

/-- JavaScript truthiness of the `currentFile` variable: `null` and the
empty string are falsy. -/
def cursorTruthy : Option String → Bool
  | none => false
  | some f => f ≠ ""

/-- One iteration of the `for (const line of lines)` loop of
`parseDiffToValidLineRanges`. -/
def diffStep (st : DiffState) (line : String) : DiffState :=
  if strStarts line "+++ b/" then
    let filePath := strDrop line 6
    if filePath = "/dev/null" then (st.1, none)
    else
      ((if (lookupTbl st.1 filePath).isSome then st.1 else st.1 ++ [(filePath, [])]),
       some filePath)
  else if strStarts line "@@" && cursorTruthy st.2 then
    match st.2, hunkSearch line.data with
    | some f, some (ns, nl) =>
      ((if 0 < nl then pushRange st.1 f ⟨ns, ns + nl - 1⟩ else st.1), st.2)
    | _, _ => st
  else st

/-- Models `parseDiffToValidLineRanges` from `utils/helpers.ts`. -/
def parseDiffToValidLineRanges (diff : String) : RangeTable :=
  ((strLines diff).foldl diffStep ([], none)).1


/-! ## ReviewValidator: the filtering step of `handleReview` in `App.tsx` -/

/-- One AI-proposed improvement; models the `ReviewImprovement` interface
(`line` is a JavaScript number, modelled as `Int`; `link` is optional and
absent until the link-building step). -/
structure Finding where
  line : Int
  file : String
  category : String
  comment : String
  link : Option String := none
deriving DecidableEq, Repr

/-- Models the `Review` interface. -/
structure Review where
  strengths : List String
  improvements : List Finding
deriving DecidableEq, Repr

/-- Models `item.line >= range.start && item.line <= range.end` from the
filter predicate of `handleReview`. -/
def findingInRange (l : Int) (r : LineRange) : Bool :=
  decide ((r.start : Int) ≤ l) && decide (l ≤ (r.«end» : Int))

/-- Models the body of the filter callback in `handleReview`: a finding is
kept when the range table has an entry for its file (`!fileRanges` guard)
and some range of that entry contains its line (`fileRanges.some(...)`). -/
def findingValid (tbl : RangeTable) (item : Finding) : Bool :=
  match lookupTbl tbl item.file with
  | none => false
  | some fileRanges => fileRanges.any (fun range => findingInRange item.line range)

/-- Models `aiReview.improvements.filter(item => ...)` from `handleReview`. -/
def filterImprovements (tbl : RangeTable) (l : List Finding) : List Finding :=
  l.filter (findingValid tbl)

/-! ## ContentAddresser: the `sha1` helper

The source delegates to the platform primitive
`crypto.subtle.digest('SHA-1', new TextEncoder().encode(str))` and then
hex-encodes each byte with `b.toString(16).padStart(2, '0')`.  The
platform digest is external to the repository, so it is modelled here by
a direct implementation of the SHA-1 algorithm of FIPS 180 (the
algorithm named by the specification), operating on the UTF-8 encoding
of the input exactly as `TextEncoder` produces it.  32-bit machine words
are modelled as `Nat` reduced modulo `2 ^ 32`. -/

/-- Reduction modulo `2 ^ 32`, the 32-bit word wrap-around. -/
def w32 (n : Nat) : Nat := n % 4294967296

/-- Left rotation of a 32-bit word by `k` bits. -/
def rotl32 (k n : Nat) : Nat := w32 (n * 2 ^ k) ||| (w32 n) / 2 ^ (32 - k)

/-- UTF-8 encoding of one character, as produced by `TextEncoder`. -/
def utf8Char (c : Char) : List Nat :=
  let n := c.toNat
  if n < 128 then [n]
  else if n < 2048 then [192 + n / 64, 128 + n % 64]
  else if n < 65536 then [224 + n / 4096, 128 + (n / 64) % 64, 128 + n % 64]
  else [240 + n / 262144, 128 + (n / 4096) % 64, 128 + (n / 64) % 64, 128 + n % 64]

/-- UTF-8 encoding of a string, as produced by `TextEncoder.encode`. -/
def utf8Bytes (s : String) : List Nat :=
  (s.data.map utf8Char).flatten

/-- Fuel-driven worker for `chunkList`; at least one element is consumed
per step, so fuel equal to the list length suffices. -/
def chunkListAux (n : Nat) : Nat → List α → List (List α)
  | 0, _ => []
  | _, [] => []
  | fuel + 1, c :: cs => (c :: cs).take (n + 1) :: chunkListAux n fuel ((c :: cs).drop (n + 1))

/-- Splits a list into consecutive chunks of `n + 1` elements. -/
def chunkList (n : Nat) (l : List α) : List (List α) :=
  chunkListAux n l.length l

/-- SHA-1 message padding: a `0x80` byte, zero bytes up to 56 modulo 64,
then the bit length as a 64-bit big-endian integer. -/
def sha1Pad (msg : List Nat) : List Nat :=
  let len := msg.length
  msg ++ [128] ++ List.replicate ((119 - len % 64) % 64) 0 ++
    (List.range 8).map (fun i => ((len * 8) >>> (8 * (7 - i))) % 256)

/-- Big-endian 32-bit word from a list of bytes. -/
def wordOfBytes (b : List Nat) : Nat :=
  b.foldl (fun a x => a * 256 + x) 0

/-- The four big-endian bytes of a 32-bit word. -/
def bytesOfWord (h : Nat) : List Nat :=
  [(h >>> 24) % 256, (h >>> 16) % 256, (h >>> 8) % 256, h % 256]

/-- SHA-1 logical function for round `t`. -/
def sha1F (t b c d : Nat) : Nat :=
  if t < 20 then (b &&& c) ||| ((b ^^^ 4294967295) &&& d)
  else if t < 40 then b ^^^ c ^^^ d
  else if t < 60 then (b &&& c) ||| (b &&& d) ||| (c &&& d)
  else b ^^^ c ^^^ d

/-- SHA-1 round constant for round `t`. -/
def sha1K (t : Nat) : Nat :=
  if t < 20 then 1518500249
  else if t < 40 then 1859775393
  else if t < 60 then 2400959708
  else 3395469782

/-- Extends the message schedule `k` more words; `acc` holds the schedule
produced so far in reverse order. -/
def sha1Expand (acc : List Nat) : Nat → List Nat
  | 0 => acc
  | k + 1 =>
    sha1Expand
      (rotl32 1 ((acc.getD 2 0) ^^^ (acc.getD 7 0) ^^^ (acc.getD 13 0) ^^^ (acc.getD 15 0)) :: acc)
      k

/-- One SHA-1 round on the register pack `(a, b, c, d, e)` with the round
index and schedule word. -/
def sha1Round (st : Nat × Nat × Nat × Nat × Nat) (tw : Nat × Nat) :
    Nat × Nat × Nat × Nat × Nat :=
  let (a, b, c, d, e) := st
  let (t, wt) := tw
  (w32 (rotl32 5 a + sha1F t b c d + e + wt + sha1K t), a, rotl32 30 b, c, d)

/-- Processes one 64-byte block, updating the five-word hash state. -/
def sha1Block (h : Nat × Nat × Nat × Nat × Nat) (block : List Nat) :
    Nat × Nat × Nat × Nat × Nat :=
  let w := (sha1Expand ((chunkList 3 block).map wordOfBytes).reverse 64).reverse
  let (h0, h1, h2, h3, h4) := h
  let (a, b, c, d, e) := w.enum.foldl sha1Round h
  (w32 (h0 + a), w32 (h1 + b), w32 (h2 + c), w32 (h3 + d), w32 (h4 + e))

/-- The SHA-1 initial hash state. -/
def sha1Init : Nat × Nat × Nat × Nat × Nat :=
  (1732584193, 4023233417, 2562383102, 271733878, 3285377520)

/-- The 20-byte SHA-1 digest of a byte sequence. -/
def sha1Digest (msg : List Nat) : List Nat :=
  let (h0, h1, h2, h3, h4) := (chunkList 63 (sha1Pad msg)).foldl sha1Block sha1Init
  ([h0, h1, h2, h3, h4].map bytesOfWord).flatten

/-- Character of one hexadecimal digit, lowercase as produced by
`Number.prototype.toString(16)`. -/
def hexDigitChar (n : Nat) : Char :=
  "0123456789abcdef".data.getD n '0'

/-- The two lowercase hexadecimal characters of a byte, modelling
`b.toString(16).padStart(2, '0')`. -/
def byteHex (b : Nat) : List Char :=
  [hexDigitChar (b / 16), hexDigitChar (b % 16)]

/-- Models the `sha1` helper of `utils/helpers.ts`: the lowercase
hexadecimal SHA-1 digest of the UTF-8 bytes of `s`. -/
def sha1Hex (s : String) : String :=
  String.mk (((sha1Digest (utf8Bytes s)).map byteHex).flatten)

/-! ## LinkBuilder: the link-enrichment step of `handleReview` -/

/-- Models the template literal building the deep link for one finding in
`handleReview`. -/
def buildLink (owner repo : String) (pull_number : Nat) (file : String) (line : Int) : String :=
  "https://github.com/" ++ owner ++ "/" ++ repo ++ "/pull/" ++ toString pull_number ++
    "/files#diff-" ++ sha1Hex file ++ "R" ++ toString line

/-- Models the `Promise.all(validReview.improvements.map(...))` fan-out:
each finding is rebuilt with its deep link attached, results reassembled
in input order. -/
def enrichWithLinks (owner repo : String) (pull_number : Nat) (l : List Finding) : List Finding :=
  l.map (fun item => { item with link := some (buildLink owner repo pull_number item.file item.line) })


/-! ## ReviewPipeline: `generateReview` from `services/geminiService.ts`

The three prompt templates are very long prose blocks; they are embedded
here in abridged form (the interpolated data and surrounding labels are
kept, filler prose is shortened), since no stated property depends on
the literal prose.  The `body || 'No description provided.'` default is
kept exactly. -/

/-- Stage-1 prompt (context gathering), abridged from the `contextPrompt`
template literal. -/
def contextPrompt (title body readmeContent masterFilesContent diff : String) : String :=
  "**Act as a research assistant for a senior software engineer.**\n" ++
  "Gather and summarize all possible context about a pull request to prepare for a deep code review.\n" ++
  "**PR Title:** " ++ title ++ "\n" ++
  "**PR Description:** " ++ (if body = "" then "No description provided." else body) ++ "\n" ++
  "**README.md Content:**\n```markdown\n" ++ readmeContent ++ "\n```\n" ++
  "**Original Content of Changed Files (from master branch):**\n```\n" ++ masterFilesContent ++ "\n```\n" ++
  "**Code Diff:**\n```diff\n" ++ diff ++ "\n```"

/-- Stage-2 prompt (initial structured review), abridged from the
`initialPrompt` template literal. -/
def initialPrompt (contextSummary diff : String) : String :=
  "**Act as a Lead Software Engineer performing a code review.**\n" ++
  "Respond with a valid JSON object adhering to the provided schema; all improvements must refer to line numbers inside the hunks of the provided diff.\n" ++
  "**Project & PR Context:**\n" ++ contextSummary ++ "\n" ++
  "**Code Diff to Review:**\n```diff\n" ++ diff ++ "\n```"

/-- Stage-3 prompt (critique and refinement), abridged from the
`refinementPrompt` template literal. -/
def refinementPrompt (contextSummary initialReviewText diff : String) : String :=
  "**Act as a meticulous Principal Engineer responsible for the quality of code reviews.**\n" ++
  "Critique the initial review and output only the final, refined JSON object; every improvement must refer to a line number and file present in the original diff.\n" ++
  "**Full Context:**\n" ++ contextSummary ++ "\n" ++
  "**Initial Review to Critique:**\n```json\n" ++ initialReviewText ++ "\n```\n" ++
  "**Original Code Diff:**\n```diff\n" ++ diff ++ "\n```"

/-- One audit-log entry, modelling the `ApiLogEntry` interface.  The
`timestamp` field (`new Date().toISOString()`, a wall-clock read) is
omitted from the model; no stated property concerns it. -/
structure ApiLogEntry where
  step : String
  prompt : String
  response : String
deriving DecidableEq, Repr

/-- Modelled from the spec: the generative-AI endpoint
(`ai.models.generateContent` of the external `@google/genai` SDK) and the
built-in `JSON.parse`, both outside this repository.  Per the endpoint
contract, a call either fails (network error, or — for the two
schema-constrained stages — a response that is not valid against the
supplied schema, which the contract says is treated as a failed call) or
returns response text; text valid against the review schema parses with
`JSON.parse` to a `Review` value, so a successful schema-constrained
response is modelled as the raw text paired with its parsed value.  One
record fixes the outcome of each of the three sequential requests of one
`generateReview` run. -/
structure GenAiOracle where
  contextResp : Option String
  initialResp : Option String
  finalResp : Option (String × Review)
deriving DecidableEq, Repr

/-- Observable outcome of one `generateReview` run: the returned value
(`none` when the run aborted with an error), the audit log produced via
the `logCallback`, and the labels of the endpoint requests actually
issued, in order. -/
structure PipelineRun where
  result : Option (Review × String)
  log : List ApiLogEntry
  calls : List String
deriving DecidableEq, Repr

/-- Models `geminiService.generateReview`: three strictly sequential
endpoint calls; after each successful call its prompt and raw response
are appended to the audit log (via `logInteraction`) before the next
call is issued; a failed call raises, aborting the run before its own
log entry is written; the stage-3 response is parsed and returned with
the stage-1 summary. -/
def generateReview (title body diff readmeContent masterFilesContent : String)
    (o : GenAiOracle) : PipelineRun :=
  let cp := contextPrompt title body readmeContent masterFilesContent diff
  match o.contextResp with
  | none => ⟨none, [], ["Context Gathering"]⟩
  | some contextSummary =>
    let ip := initialPrompt contextSummary diff
    match o.initialResp with
    | none =>
      ⟨none, [⟨"Context Gathering", cp, contextSummary⟩],
       ["Context Gathering", "Initial Review"]⟩
    | some initialReviewText =>
      let rp := refinementPrompt contextSummary initialReviewText diff
      match o.finalResp with
      | none =>
        ⟨none,
         [⟨"Context Gathering", cp, contextSummary⟩, ⟨"Initial Review", ip, initialReviewText⟩],
         ["Context Gathering", "Initial Review", "Refinement"]⟩
      | some (finalReviewText, parsed) =>
        ⟨some (parsed, contextSummary),
         [⟨"Context Gathering", cp, contextSummary⟩, ⟨"Initial Review", ip, initialReviewText⟩,
          ⟨"Refinement", rp, finalReviewText⟩],
         ["Context Gathering", "Initial Review", "Refinement"]⟩

/-! ## FollowupPromptBuilder: snippet location in `handleGenerateCopilotPrompt`
of `App.tsx`

The source builds
`new RegExp('--- File: ' + file + ' ---\n([\s\S]*?)(?=\n--- File:|$)')`
and matches it against the concatenated snapshots.  The file path is
spliced into the pattern unescaped, so a `.` in the path is the
any-character-but-line-terminator metacharacter; the model reproduces
this for `.` (file paths containing other regex metacharacters are
outside the model).  The capture group is lazy, so it is the shortest
run of arbitrary characters after the header at whose end either
`\n--- File:` follows or the input ends. -/

/-- Wildcard-aware literal matching: pattern character `.` matches any
character except a line terminator, every other character matches
itself. -/
def patMatch : List Char → List Char → Option (List Char)
  | [], s => some s
  | _ :: _, [] => none
  | p :: ps, c :: cs =>
    if (p = '.' ∧ c ≠ '\n' ∧ c ≠ '\r') ∨ p = c then patMatch ps cs else none

/-- The pattern characters of the file-block header. -/
def fileBlockHeader (file : String) : List Char :=
  ("--- File: " ++ file ++ " ---\n").data

/-- Lazy capture `([\s\S]*?)(?=\n--- File:|$)`: consume characters until
the lookahead `\n--- File:` matches or the input is exhausted. -/
def captureBlock : List Char → List Char
  | [] => []
  | c :: cs =>
    if (dropLit "\n--- File:".data (c :: cs)).isSome then []
    else c :: captureBlock cs

/-- Leftmost search for the file-block pattern; on success returns the
captured block content. -/
def blockSearch (hdr : List Char) : List Char → Option (List Char)
  | [] => (patMatch hdr []).map captureBlock
  | c :: cs =>
    match patMatch hdr (c :: cs) with
    | some rest => some (captureBlock rest)
    | none => blockSearch hdr cs

/-- Models `masterFilesContent.match(fileBlockRegex)` restricted to the
captured group: the content of the block for `file`, or `none` when the
pattern does not match. -/
def findFileBlock (masterFilesContent file : String) : Option String :=
  (blockSearch (fileBlockHeader file) masterFilesContent.data).map String.mk

/-- Models the snippet-building part of `handleGenerateCopilotPrompt`:
locate the file block (`!match || !match[1]` throws — note an empty
capture is falsy in JavaScript), then cut the window
`lines.slice(Math.max(0, lineIndex - 5), Math.min(lines.length, lineIndex + 6))`
and join it with newlines.  The error value is the thrown message. -/
def copilotSnippet (masterFilesContent file : String) (line : Int) : Except String String :=
  match findFileBlock masterFilesContent file with
  | none => .error ("Could not find content for file: " ++ file)
  | some fileContent =>
    if fileContent = "" then .error ("Could not find content for file: " ++ file)
    else
      let lines := strLines fileContent
      let lineIndex : Int := line - 1
      let contextLines : Int := 5
      let s := max 0 (lineIndex - contextLines)
      let e := min (lines.length : Int) (lineIndex + contextLines + 1)
      .ok (String.intercalate "\n" (jsSlice lines s e))

set_option maxRecDepth 40000 in
example : sha1Hex "abc" = "a9993e364706816aba3e25717850c26c9cd0d89d" := by decide
set_option maxRecDepth 40000 in
example : sha1Hex "src/a.ts" = "21ff24dd18cc19d35de15a120639695824655b58" := by decide
set_option maxRecDepth 40000 in
example : sha1Hex "" = "da39a3ee5e6b4b0d3255bfef95601890afd80709" := by decide
example : findFileBlock "--- File: a.ts ---\nx\ny\n--- File: b.ts ---\nz" "a.ts" = some "x\ny" := by decide
example : findFileBlock "--- File: a ---\n" "a" = some "" := by decide
example : findFileBlock "--- File: a ---\nz" "b" = none := by decide
example : copilotSnippet "--- File: a ---\nl1\nl2\nl3\nl4\nl5\nl6\nl7\nl8" "a" 7 = .ok "l2\nl3\nl4\nl5\nl6\nl7\nl8" := rfl
example : copilotSnippet "--- File: a ---\n" "a" 1 = .error "Could not find content for file: a" := rfl

/-! ## Helper lemmas -/

theorem dropLit_eq_some : ∀ {p s r : List Char}, dropLit p s = some r → s = p ++ r := by
  intro p
  induction p with
  | nil =>
    intro s r h
    simp [dropLit] at h
    simp [h]
  | cons c cs ih =>
    intro s r h
    cases s with
    | nil => simp [dropLit] at h
    | cons a as =>
      simp only [dropLit] at h
      split at h
      · next hca => subst hca; simpa using ih h
      · exact absurd h (by simp)

theorem dropLit_self (p r : List Char) : dropLit p (p ++ r) = some r := by
  induction p with
  | nil => rfl
  | cons c cs ih => simp [dropLit, ih]

theorem strStarts_iff {s p : String} : strStarts s p = true ↔ ∃ r, s.data = p.data ++ r := by
  unfold strStarts
  constructor
  · intro h
    cases hd : dropLit p.data s.data with
    | none => rw [hd] at h; simp at h
    | some r => exact ⟨r, dropLit_eq_some hd⟩
  · rintro ⟨r, hr⟩
    rw [hr, dropLit_self]
    rfl

theorem takeWhile_all_append (p : α → Bool) (l : List α) (c : α) (r : List α)
    (h1 : ∀ x ∈ l, p x = true) (h2 : p c = false) :
    (l ++ c :: r).takeWhile p = l := by
  induction l with
  | nil => simp [List.takeWhile_cons, h2]
  | cons a l ih =>
    have ha : p a = true := h1 a (by simp)
    simp [List.takeWhile_cons, ha, ih (fun x hx => h1 x (by simp [hx]))]

theorem dropWhile_all_append (p : α → Bool) (l : List α) (c : α) (r : List α)
    (h1 : ∀ x ∈ l, p x = true) (h2 : p c = false) :
    (l ++ c :: r).dropWhile p = c :: r := by
  induction l with
  | nil => simp [List.dropWhile_cons, h2]
  | cons a l ih =>
    have ha : p a = true := h1 a (by simp)
    simp [List.dropWhile_cons, ha, ih (fun x hx => h1 x (by simp [hx]))]

theorem takeWhile_append_all (p : α → Bool) (l r : List α) (h1 : ∀ x ∈ l, p x = true) :
    (l ++ r).takeWhile p = l ++ r.takeWhile p := by
  induction l with
  | nil => simp
  | cons a l ih =>
    have ha : p a = true := h1 a (by simp)
    simp [List.takeWhile_cons, ha, ih (fun x hx => h1 x (by simp [hx]))]

theorem string_ext {s t : String} (h : s.data = t.data) : s = t :=
  congrArg String.mk h

theorem string_data_append (s t : String) : (s ++ t).data = s.data ++ t.data := rfl

theorem pushRange_cons (a : String) (b : List LineRange) (t : RangeTable) (f : String)
    (r : LineRange) :
    pushRange ((a, b) :: t) f r =
      (if a = f then (a, b ++ [r]) else (a, b)) :: pushRange t f r := by
  simp [pushRange]

theorem lookupTbl_append_isSome (tbl : RangeTable) (k : String) (v : List LineRange) (p : String) :
    (lookupTbl (tbl ++ [(k, v)]) p).isSome = true ↔ (lookupTbl tbl p).isSome = true ∨ p = k := by
  induction tbl with
  | nil =>
    simp only [List.nil_append, lookupTbl]
    by_cases hk : k = p
    · subst hk; simp
    · simp [hk, Ne.symm hk]
  | cons e t ih =>
    obtain ⟨a, b⟩ := e
    by_cases hp : a = p <;> simp [lookupTbl, hp, ih]

theorem lookupTbl_pushRange_isSome (tbl : RangeTable) (f : String) (r : LineRange) (p : String) :
    (lookupTbl (pushRange tbl f r) p).isSome = (lookupTbl tbl p).isSome := by
  induction tbl with
  | nil => rfl
  | cons e t ih =>
    obtain ⟨a, b⟩ := e
    rw [pushRange_cons]
    by_cases haf : a = f
    · rw [if_pos haf]
      simp only [lookupTbl]
      by_cases hap : a = p <;> simp [hap, ih]
    · rw [if_neg haf]
      simp only [lookupTbl]
      by_cases hap : a = p <;> simp [hap, ih]

theorem lookupTbl_pushRange_some (tbl : RangeTable) (f : String) (r : LineRange) (p : String)
    (l : List LineRange) (h : lookupTbl tbl p = some l) :
    lookupTbl (pushRange tbl f r) p = some (if p = f then l ++ [r] else l) := by
  induction tbl with
  | nil => simp [lookupTbl] at h
  | cons e t ih =>
    obtain ⟨a, b⟩ := e
    rw [pushRange_cons]
    by_cases hap : a = p
    · subst hap
      rw [lookupTbl, if_pos rfl] at h
      injection h with h
      subst h
      by_cases haf : a = f
      · rw [if_pos haf, lookupTbl, if_pos rfl, if_pos haf]
      · rw [if_neg haf, lookupTbl, if_pos rfl, if_neg haf]
    · rw [lookupTbl, if_neg hap] at h
      by_cases haf : a = f
      · rw [if_pos haf, lookupTbl, if_neg (haf ▸ hap)]
        exact ih h
      · rw [if_neg haf, lookupTbl, if_neg hap]
        exact ih h

theorem lookupTbl_append_of_some (tbl X : RangeTable) (p : String) (l : List LineRange)
    (h : lookupTbl tbl p = some l) : lookupTbl (tbl ++ X) p = some l := by
  induction tbl with
  | nil => simp [lookupTbl] at h
  | cons e t ih =>
    obtain ⟨a, b⟩ := e
    rw [lookupTbl] at h
    rw [List.cons_append, lookupTbl]
    by_cases hap : a = p
    · rwa [if_pos hap] at h ⊢
    · rw [if_neg hap] at h ⊢
      exact ih h

theorem strDrop_header {line : String} {r : List Char} (h : line.data = "+++ b/".data ++ r) :
    strDrop line 6 = String.mk r := by
  unfold strDrop
  rw [h]
  have h6 : ("+++ b/".data).length = 6 := rfl
  rw [← h6, List.drop_left]

theorem diffStep_keys (tbl : RangeTable) (cur : Option String) (line p : String) :
    (lookupTbl (diffStep (tbl, cur) line).1 p).isSome = true ↔
      (lookupTbl tbl p).isSome = true ∨ (line = "+++ b/" ++ p ∧ p ≠ "/dev/null") := by
  by_cases hb : strStarts line "+++ b/" = true
  · obtain ⟨r, hr⟩ := strStarts_iff.mp hb
    have hdrop : strDrop line 6 = String.mk r := strDrop_header hr
    have hlineeq : ∀ q : String, line = "+++ b/" ++ q ↔ String.mk r = q := by
      intro q
      constructor
      · intro hq
        have hd : line.data = ("+++ b/" ++ q).data := by rw [hq]
        rw [hr, string_data_append] at hd
        exact string_ext (List.append_cancel_left hd)
      · intro hq
        rw [← hq]
        exact string_ext (by rw [hr]; rfl)
    unfold diffStep
    rw [if_pos hb, hdrop]
    by_cases hdn : String.mk r = "/dev/null"
    · rw [if_pos hdn]
      constructor
      · exact Or.inl
      · rintro (h | ⟨hq, hne⟩)
        · exact h
        · exact absurd (by rw [← (hlineeq p).mp hq]; exact hdn) hne
    · rw [if_neg hdn]
      by_cases hk : (lookupTbl tbl (String.mk r)).isSome = true
      · rw [if_pos hk]
        constructor
        · exact Or.inl
        · rintro (h | ⟨hq, hne⟩)
          · exact h
          · rwa [← (hlineeq p).mp hq]
      · rw [if_neg hk]
        rw [lookupTbl_append_isSome]
        constructor
        · rintro (h | hpk)
          · exact Or.inl h
          · exact Or.inr ⟨(hlineeq p).mpr hpk.symm, by rw [hpk]; exact hdn⟩
        · rintro (h | ⟨hq, hne⟩)
          · exact Or.inl h
          · exact Or.inr ((hlineeq p).mp hq).symm
  · have hno : ¬ (line = "+++ b/" ++ p ∧ p ≠ "/dev/null") := by
      rintro ⟨hq, -⟩
      exact hb (strStarts_iff.mpr ⟨p.data, by rw [hq, string_data_append]⟩)
    unfold diffStep
    rw [if_neg hb]
    by_cases hg : (strStarts line "@@" && cursorTruthy cur) = true
    · rw [if_pos hg]
      cases cur with
      | none => simp [hno]
      | some g =>
        cases hh : hunkSearch line.data with
        | none => simp [hno]
        | some v =>
          obtain ⟨ns, nl⟩ := v
          by_cases hnl : 0 < nl
          · simp [hnl, lookupTbl_pushRange_isSome, hno]
          · simp [hnl, hno]
    · rw [if_neg hg]
      simp [hno]

theorem foldl_keys (lines : List String) (tbl : RangeTable) (cur : Option String) (p : String) :
    (lookupTbl ((lines.foldl diffStep (tbl, cur)).1) p).isSome = true ↔
      (lookupTbl tbl p).isSome = true ∨ (("+++ b/" ++ p) ∈ lines ∧ p ≠ "/dev/null") := by
  induction lines generalizing tbl cur with
  | nil => simp
  | cons a as ih =>
    simp only [List.foldl_cons]
    rcases hstep : diffStep (tbl, cur) a with ⟨tbl', cur'⟩
    have hk := diffStep_keys tbl cur a p
    rw [hstep] at hk
    rw [ih tbl' cur', hk, List.mem_cons, @eq_comm _ ("+++ b/" ++ p) a]
    tauto

theorem diffStep_mono (tbl : RangeTable) (cur : Option String) (line f : String)
    (l : List LineRange) (h : lookupTbl tbl f = some l) :
    ∃ t, lookupTbl ((diffStep (tbl, cur) line).1) f = some (l ++ t) := by
  unfold diffStep
  by_cases hb : strStarts line "+++ b/" = true
  · rw [if_pos hb]
    by_cases hdn : strDrop line 6 = "/dev/null"
    · exact ⟨[], by simp [hdn, h]⟩
    · rw [if_neg hdn]
      by_cases hk : (lookupTbl tbl (strDrop line 6)).isSome = true
      · exact ⟨[], by simp [hk, h]⟩
      · exact ⟨[], by simp [hk, lookupTbl_append_of_some tbl _ f l h]⟩
  · rw [if_neg hb]
    by_cases hg : (strStarts line "@@" && cursorTruthy cur) = true
    · rw [if_pos hg]
      cases cur with
      | none => exact ⟨[], by simpa using h⟩
      | some g =>
        cases hh : hunkSearch line.data with
        | none => exact ⟨[], by simpa using h⟩
        | some v =>
          obtain ⟨ns, nl⟩ := v
          by_cases hnl : 0 < nl
          · refine ⟨if f = g then [⟨ns, ns + nl - 1⟩] else [], ?_⟩
            have hp := lookupTbl_pushRange_some tbl g ⟨ns, ns + nl - 1⟩ f l h
            by_cases hfg : f = g
            · simpa [hnl, hfg] using hp
            · simpa [hnl, hfg] using hp
          · exact ⟨[], by simp [hnl]; simpa using h⟩
    · rw [if_neg hg]
      exact ⟨[], by simpa using h⟩

theorem foldl_mono (lines : List String) (tbl : RangeTable) (cur : Option String)
    (f : String) (l : List LineRange) (h : lookupTbl tbl f = some l) :
    ∃ t, lookupTbl ((lines.foldl diffStep (tbl, cur)).1) f = some (l ++ t) := by
  induction lines generalizing tbl cur l with
  | nil => exact ⟨[], by simpa using h⟩
  | cons a as ih =>
    simp only [List.foldl_cons]
    rcases hstep : diffStep (tbl, cur) a with ⟨tbl', cur'⟩
    obtain ⟨t1, h1⟩ := diffStep_mono tbl cur a f l h
    rw [hstep] at h1
    obtain ⟨t2, h2⟩ := ih tbl' cur' (l ++ t1) h1
    exact ⟨t1 ++ t2, by simpa [List.append_assoc] using h2⟩

theorem findingValid_iff (tbl : RangeTable) (f : Finding) :
    findingValid tbl f = true ↔
      ∃ rs, lookupTbl tbl f.file = some rs ∧
        ∃ r ∈ rs, (r.start : Int) ≤ f.line ∧ f.line ≤ (r.«end» : Int) := by
  unfold findingValid
  cases h : lookupTbl tbl f.file with
  | none => simp [h]
  | some rs => simp [h, List.any_eq_true, findingInRange]

/-- C1: the validator retains exactly those findings whose file has a
range-table entry containing a range that includes the finding line;
all other findings are dropped, and the retained findings form an
unmodified, order-preserving sublist of the input. -/
theorem validator_retains_exactly_in_range (tbl : RangeTable) (l : List Finding) :
    (∀ f : Finding, f ∈ filterImprovements tbl l ↔
      f ∈ l ∧ ∃ rs, lookupTbl tbl f.file = some rs ∧
        ∃ r ∈ rs, (r.start : Int) ≤ f.line ∧ f.line ≤ (r.«end» : Int))
    ∧ List.Sublist (filterImprovements tbl l) l := by
  constructor
  · intro f
    rw [filterImprovements, List.mem_filter, findingValid_iff]
  · exact List.filter_sublist l

/-- Witness for C1: the scenario-3 table keeps the line-3 finding. -/
theorem validator_retains_exactly_in_range_w :
    ((⟨3, "src/a.ts", "Style", "c", none⟩ : Finding) ∈
      filterImprovements [("src/a.ts", [⟨1, 5⟩])]
        [⟨3, "src/a.ts", "Style", "c", none⟩, ⟨10, "src/a.ts", "Style", "c", none⟩]) :=
  ((validator_retains_exactly_in_range _ _).1 _).mpr
    ⟨by decide, ⟨[⟨1, 5⟩], by decide, ⟨1, 5⟩, by decide, by decide, by decide⟩⟩

/-- C3: a file path is a key of the parser output exactly when the diff
has the line `+++ b/` followed by that path (and the path is not the
literal `/dev/null`); a file whose header was seen but whose hunks yield
no ranges still appears, with an empty list. -/
theorem parser_keys_iff_header :
    (∀ diff p : String,
      (lookupTbl (parseDiffToValidLineRanges diff) p).isSome = true ↔
        ("+++ b/" ++ p) ∈ strLines diff ∧ p ≠ "/dev/null")
    ∧ parseDiffToValidLineRanges "+++ b/empty.ts\n@@ -1,5 +0,0 @@" = [("empty.ts", [])] := by
  constructor
  · intro diff p
    have h := foldl_keys (strLines diff) [] none p
    simpa [parseDiffToValidLineRanges, lookupTbl] using h
  · decide

/-- Witness for C3: both directions at a concrete diff and path. -/
theorem parser_keys_iff_header_w :
    (lookupTbl (parseDiffToValidLineRanges "+++ b/src/a.ts\n@@ -1,3 +1,5 @@") "src/a.ts").isSome
      = true :=
  (parser_keys_iff_header.1 "+++ b/src/a.ts\n@@ -1,3 +1,5 @@" "src/a.ts").mpr
    ⟨by decide, by decide⟩

/-- C10: processing more diff lines never removes or resets ranges
already recorded for a file: whatever list a prefix of the parse has
built for a path, the full parse holds that list extended on the right;
a repeated `+++ b/` header keeps appending to the existing list, as the
concrete duplicated-header diff shows. -/
theorem range_lists_grow_monotonically :
    (∀ (pre more : List String) (f : String) (l : List LineRange),
      lookupTbl ((pre.foldl diffStep ([], none)).1) f = some l →
      ∃ t, lookupTbl (((pre ++ more).foldl diffStep ([], none)).1) f = some (l ++ t))
    ∧ parseDiffToValidLineRanges
        "+++ b/a\n@@ -1 +1,2 @@\n+++ b/b\n+++ b/a\n@@ -1 +10,2 @@" =
      [("a", [⟨1, 2⟩, ⟨10, 11⟩]), ("b", [])] := by
  constructor
  · intro pre more f l h
    rw [List.foldl_append]
    rcases hstate : pre.foldl diffStep (([], none) : DiffState) with ⟨tbl, cur⟩
    rw [hstate] at h
    exact foldl_mono more tbl cur f l h
  · decide

/-- Witness for C10: the ranges of `a` recorded by the first two lines
survive, extended, after two more lines re-open the file. -/
theorem range_lists_grow_monotonically_w :
    ∃ t, lookupTbl
        (((["+++ b/a", "@@ -1 +1,2 @@"] ++ ["+++ b/a", "@@ -1 +10,2 @@"]).foldl
          diffStep ([], none)).1) "a" = some ([⟨1, 2⟩] ++ t) :=
  range_lists_grow_monotonically.1 ["+++ b/a", "@@ -1 +1,2 @@"]
    ["+++ b/a", "@@ -1 +10,2 @@"] "a" [⟨1, 2⟩] (by decide)

/-- Counterexample for C4: the literal diff line `+++ b/dev/null` does
contribute an entry — the characters after the `+++ b/` prefix form the
path `dev/null`, which is not the `/dev/null` sentinel the code compares
against, so the file is registered and its following hunk recorded. -/
theorem devnull_header_creates_entry :
    parseDiffToValidLineRanges "+++ b/dev/null\n@@ -1,3 +1,5 @@" = [("dev/null", [⟨1, 5⟩])]
    ∧ (lookupTbl (parseDiffToValidLineRanges "+++ b/dev/null\n@@ -1,3 +1,5 @@") "dev/null").isSome
        = true := by
  constructor <;> decide

/-- C4 (amended): the header line whose path part is exactly `/dev/null`
— i.e. the literal line `+++ b//dev/null` — clears the cursor and adds
no entry; while the cursor is cleared every non-header line (hunk
headers included) leaves the state unchanged, until the next file
header; end to end, such a diff yields an empty table. -/
theorem devnull_slash_header_clears_cursor :
    (∀ st : DiffState, diffStep st "+++ b//dev/null" = (st.1, none))
    ∧ (∀ (tbl : RangeTable) (line : String), strStarts line "+++ b/" = false →
        diffStep (tbl, none) line = (tbl, none))
    ∧ parseDiffToValidLineRanges "+++ b//dev/null\n@@ -1,3 +1,5 @@" = [] := by
  refine ⟨?_, ?_, by decide⟩
  · intro st
    have h1 : strStarts "+++ b//dev/null" "+++ b/" = true := by decide
    have h2 : strDrop "+++ b//dev/null" 6 = "/dev/null" := by decide
    unfold diffStep
    rw [if_pos h1, h2, if_pos rfl]
  · intro tbl line h
    unfold diffStep
    rw [if_neg (by simp [h]), if_neg (by simp [cursorTruthy])]

/-- Witness for C4 (amended): a hunk header arriving with a cleared
cursor is ignored. -/
theorem devnull_slash_header_clears_cursor_w :
    diffStep ([("q", [])], none) "@@ -1,3 +1,5 @@" = ([("q", [])], none) :=
  devnull_slash_header_clears_cursor.2.1 [("q", [])] "@@ -1,3 +1,5 @@" (by decide)

/-- Counterexample for C6: when the stage-2 call fails, the audit log
holds only the stage-1 entry — the failed stage-2 attempt is not logged,
because `logInteraction` for a stage runs only after that stage's
response has arrived. -/
theorem stage2_failure_not_logged :
    ((generateReview "t" "b" "d" "r" "m" ⟨some "S", none, none⟩).log.map ApiLogEntry.step
      = ["Context Gathering"])
    ∧ ("Initial Review" ∉
        (generateReview "t" "b" "d" "r" "m" ⟨some "S", none, none⟩).log.map ApiLogEntry.step) := by
  constructor <;> decide

/-- C6 (amended): when stage 2 fails, the run terminates with no result,
no stage-3 request is issued (exactly the stage-1 and stage-2 requests
were made), and the log holds exactly the stage-1 entry, written before
stage 2 started; when every stage succeeds, each stage's prompt and raw
response appear in the log in stage order. -/
theorem stage2_failure_behavior :
    (∀ (title body diff readme files : String) (o : GenAiOracle) (s : String),
      o.contextResp = some s → o.initialResp = none →
      generateReview title body diff readme files o =
        ⟨none, [⟨"Context Gathering", contextPrompt title body readme files diff, s⟩],
         ["Context Gathering", "Initial Review"]⟩)
    ∧ (∀ (title body diff readme files : String) (o : GenAiOracle)
        (s t2 t3 : String) (v : Review),
      o.contextResp = some s → o.initialResp = some t2 → o.finalResp = some (t3, v) →
      (generateReview title body diff readme files o).log =
        [⟨"Context Gathering", contextPrompt title body readme files diff, s⟩,
         ⟨"Initial Review", initialPrompt s diff, t2⟩,
         ⟨"Refinement", refinementPrompt s t2 diff, t3⟩]) := by
  constructor
  · intro title body diff readme files o s hc hi
    obtain ⟨cr, ir, fr⟩ := o
    cases hc
    cases hi
    rfl
  · intro title body diff readme files o s t2 t3 v hc hi hf
    obtain ⟨cr, ir, fr⟩ := o
    cases hc
    cases hi
    cases hf
    rfl

/-- Witness for C6 (amended): the stage-2-failure clause at a concrete
oracle. -/
theorem stage2_failure_behavior_w :
    generateReview "t" "b" "d" "r" "m" ⟨some "S", none, some ("x", ⟨[], []⟩)⟩ =
      ⟨none, [⟨"Context Gathering", contextPrompt "t" "b" "r" "m" "d", "S"⟩],
       ["Context Gathering", "Initial Review"]⟩ :=
  stage2_failure_behavior.1 "t" "b" "d" "r" "m" ⟨some "S", none, some ("x", ⟨[], []⟩)⟩ "S" rfl rfl

/-- C7: a stage-3 response that is not valid against the review schema
is a failed call (per the endpoint contract), so the run returns no
review; each of the three stage requests was issued exactly once, with
no retry. -/
theorem stage3_schema_failure_aborts :
    ∀ (title body diff readme files : String) (o : GenAiOracle) (s t2 : String),
      o.contextResp = some s → o.initialResp = some t2 → o.finalResp = none →
      (generateReview title body diff readme files o).result = none ∧
      (generateReview title body diff readme files o).calls =
        ["Context Gathering", "Initial Review", "Refinement"] := by
  intro title body diff readme files o s t2 hc hi hf
  obtain ⟨cr, ir, fr⟩ := o
  cases hc
  cases hi
  cases hf
  exact ⟨rfl, rfl⟩

/-- Witness for C7: the stage-3-failure outcome at a concrete oracle. -/
theorem stage3_schema_failure_aborts_w :
    (generateReview "t" "b" "d" "r" "m" ⟨some "S", some "T2", none⟩).result = none ∧
    (generateReview "t" "b" "d" "r" "m" ⟨some "S", some "T2", none⟩).calls =
      ["Context Gathering", "Initial Review", "Refinement"] :=
  stage3_schema_failure_aborts "t" "b" "d" "r" "m" ⟨some "S", some "T2", none⟩ "S" "T2" rfl rfl rfl

theorem dropLit_space_plus (X : List Char) : dropLit " +".data (' ' :: '+' :: X) = some X := rfl

theorem dropLit_space_atat (X : List Char) :
    dropLit " @@".data (' ' :: '@' :: '@' :: X) = some X := rfl

theorem hunkSearch_cons_some {c : Char} {cs : List Char} {v : Nat × Nat}
    (h : hunkAt (c :: cs) = some v) : hunkSearch (c :: cs) = some v := by
  unfold hunkSearch
  rw [h]

theorem hunkAt_no_comma (c1 : Char) (t1 : List Char) (c3 : Char) (t3 : List Char)
    (rest : List Char)
    (hd1 : ∀ c ∈ c1 :: t1, c.isDigit = true) (hd3 : ∀ c ∈ c3 :: t3, c.isDigit = true) :
    hunkAt ("@@ -".data ++
        ((c1 :: t1) ++ (' ' :: '+' :: ((c3 :: t3) ++ (' ' :: '@' :: '@' :: rest))))) =
      some (natOfDigits (c3 :: t3), 1) := by
  unfold hunkAt
  rw [dropLit_self]
  dsimp only
  rw [takeWhile_all_append _ _ _ _ hd1 (by decide),
    dropWhile_all_append _ _ _ _ hd1 (by decide)]
  rw [if_neg (by simp)]
  split
  next h => simp at h
  next r3 h =>
    simp at h
    subst h
    rw [dropLit_space_plus]
    dsimp only
    rw [← List.cons_append]
    rw [takeWhile_all_append _ _ _ _ hd3 (by decide),
      dropWhile_all_append _ _ _ _ hd3 (by decide)]
    rw [if_neg (by simp)]
    split
    next h => simp at h
    next nl r6 h =>
      simp at h
      obtain ⟨h1, h2⟩ := h
      subst h1
      subst h2
      rw [dropLit_space_atat]

/-- C2: while a current file is set (a nonempty cursor, as the code's
truthiness guard requires), a line whose hunk-header match yields
new-start `ns` and new-length `nl` appends the inclusive range
`[ns, ns + nl - 1]` to that file's list when `nl > 0` and contributes
nothing when `nl = 0`; a header with the new-length omitted parses with
length 1, so it yields an exactly-one-line range; and the scenario diff
produces the stated table. -/
theorem hunk_header_appends_range :
    (∀ (tbl : RangeTable) (f line : String) (ns nl : Nat),
      f ≠ "" →
      strStarts line "@@" = true →
      hunkSearch line.data = some (ns, nl) →
      diffStep (tbl, some f) line =
        ((if 0 < nl then pushRange tbl f ⟨ns, ns + nl - 1⟩ else tbl), some f))
    ∧ (∀ (d1 d3 rest : List Char),
      d1 ≠ [] → d3 ≠ [] →
      (∀ c ∈ d1, c.isDigit = true) → (∀ c ∈ d3, c.isDigit = true) →
      hunkSearch ("@@ -".data ++ (d1 ++ (' ' :: '+' :: (d3 ++ (' ' :: '@' :: '@' :: rest))))) =
        some (natOfDigits d3, 1))
    ∧ parseDiffToValidLineRanges "+++ b/src/a.ts\n@@ -1,3 +1,5 @@" =
        [("src/a.ts", [⟨1, 5⟩])] := by
  refine ⟨?_, ?_, by decide⟩
  · intro tbl f line ns nl hf hs hh
    have hb : strStarts line "+++ b/" = false := by
      cases hF : strStarts line "+++ b/"
      · rfl
      · exfalso
        obtain ⟨r, hr⟩ := strStarts_iff.mp hF
        obtain ⟨r2, hr2⟩ := strStarts_iff.mp hs
        rw [hr] at hr2
        rw [show ("+++ b/".data) = ['+', '+', '+', ' ', 'b', '/'] from rfl,
          show ("@@".data) = ['@', '@'] from rfl] at hr2
        simp at hr2
    have hcur : cursorTruthy (some f) = true := by simp [cursorTruthy, hf]
    unfold diffStep
    rw [if_neg (by simp [hb]), if_pos (by rw [hs, hcur]; rfl), hh]
  · intro d1 d3 rest h1 h3 hd1 hd3
    obtain ⟨c1, t1, rfl⟩ := List.exists_cons_of_ne_nil h1
    obtain ⟨c3, t3, rfl⟩ := List.exists_cons_of_ne_nil h3
    have hA := hunkAt_no_comma c1 t1 c3 t3 rest hd1 hd3
    rw [show ("@@ -".data ++
        ((c1 :: t1) ++ (' ' :: '+' :: ((c3 :: t3) ++ (' ' :: '@' :: '@' :: rest))))) =
      '@' :: ('@' :: ' ' :: '-' ::
        ((c1 :: t1) ++ (' ' :: '+' :: ((c3 :: t3) ++ (' ' :: '@' :: '@' :: rest))))) from rfl]
    exact hunkSearch_cons_some hA

/-- Witness for C2: the step clause at a concrete state and hunk line. -/
theorem hunk_header_appends_range_w :
    diffStep ([("x", [])], some "x") "@@ -2,3 +7,2 @@" =
      ((if 0 < 2 then pushRange [("x", [])] "x" ⟨7, 7 + 2 - 1⟩ else [("x", [])]), some "x") :=
  hunk_header_appends_range.1 [("x", [])] "x" "@@ -2,3 +7,2 @@" 7 2
    (by decide) (by decide) (by decide)

theorem hexDigitChar_mem (n : Nat) : hexDigitChar n ∈ "0123456789abcdef".data := by
  unfold hexDigitChar
  rcases Nat.lt_or_ge n ("0123456789abcdef".data.length) with h | h
  · rw [List.getD_eq_getElem _ _ h]
    exact List.getElem_mem h
  · rw [List.getD_eq_default _ _ h]
    decide

/-- C5: each enriched finding's deep link is the GitHub template with a
hash segment equal to the lowercase-hex encoding of the 20-byte SHA-1
digest of the finding's file path (and of nothing else, so it does not
depend on the line number); the builder is a pure function, hence
deterministic, and enrichment maps over the findings in input order. -/
theorem link_format_sha1 :
    (∀ (owner repo : String) (pn : Nat) (file : String) (line : Int),
      buildLink owner repo pn file line =
        "https://github.com/" ++ owner ++ "/" ++ repo ++ "/pull/" ++ toString pn ++
          "/files#diff-" ++ sha1Hex file ++ "R" ++ toString line)
    ∧ (∀ file : String, (sha1Digest (utf8Bytes file)).length = 20)
    ∧ (∀ file : String,
        sha1Hex file = String.mk (((sha1Digest (utf8Bytes file)).map byteHex).flatten))
    ∧ (∀ (file : String) (c : Char), c ∈ (sha1Hex file).data → c ∈ "0123456789abcdef".data)
    ∧ (∀ (owner repo : String) (pn : Nat) (l : List Finding),
      enrichWithLinks owner repo pn l =
        l.map (fun item =>
          { item with link := some (buildLink owner repo pn item.file item.line) })) := by
  refine ⟨fun _ _ _ _ _ => rfl, ?_, fun _ => rfl, ?_, fun _ _ _ _ => rfl⟩
  · intro file
    unfold sha1Digest
    generalize (chunkList 63 (sha1Pad (utf8Bytes file))).foldl sha1Block sha1Init = x
    obtain ⟨h0, h1, h2, h3, h4⟩ := x
    simp [bytesOfWord]
  · intro file c hc
    simp only [sha1Hex] at hc
    simp [List.mem_flatten, byteHex] at hc
    obtain ⟨b, hb, hcb⟩ := hc
    rcases hcb with rfl | rfl <;> exact hexDigitChar_mem _

set_option maxRecDepth 40000 in
/-- Witness for C5: a character of a concrete hash is a lowercase hex
digit. -/
theorem link_format_sha1_w : ('8' : Char) ∈ "0123456789abcdef".data :=
  link_format_sha1.2.2.2.1 "a" '8' (by decide)

theorem dropLit_slash (X : List Char) : dropLit "/".data ('/' :: X) = some X := rfl

theorem dropLit_pull (X : List Char) :
    dropLit "/pull/".data ('/' :: 'p' :: 'u' :: 'l' :: 'l' :: '/' :: X) = some X := rfl

theorem ghMatchAt_some_decomp {cs : List Char} {d : PrData} (h : ghMatchAt cs = some d) :
    ∃ ds rest, cs = "github.com/".data ++ (d.owner.data ++ ('/' ::
        (d.repo.data ++ ('/' :: 'p' :: 'u' :: 'l' :: 'l' :: '/' :: (ds ++ rest)))))
      ∧ d.owner.data ≠ [] ∧ d.repo.data ≠ []
      ∧ (∀ c ∈ d.owner.data, c ≠ '/') ∧ (∀ c ∈ d.repo.data, c ≠ '/')
      ∧ ds ≠ [] ∧ (∀ c ∈ ds, c.isDigit = true) ∧ d.pull_number = natOfDigits ds := by
  unfold ghMatchAt at h
  split at h
  · exact absurd h (by simp)
  next r1 h1 =>
    dsimp only at h
    split at h
    · exact absurd h (by simp)
    next how =>
      split at h
      · exact absurd h (by simp)
      next r2 h2 =>
        split at h
        · exact absurd h (by simp)
        next hrp =>
          split at h
          · exact absurd h (by simp)
          next r3 h3 =>
            split at h
            · exact absurd h (by simp)
            next hds =>
              injection h with h
              subst h
              refine ⟨r3.takeWhile Char.isDigit, r3.dropWhile Char.isDigit,
                ?_, ?_, ?_, ?_, ?_, ?_, ?_, ?_⟩
              · have e1 : cs = "github.com/".data ++ r1 := dropLit_eq_some h1
                have e2 : r1 = r1.takeWhile (fun c => decide (c ≠ '/')) ++ ('/' :: r2) := by
                  conv_lhs => rw [← List.takeWhile_append_dropWhile
                    (p := fun c => decide (c ≠ '/')) (l := r1)]
                  rw [dropLit_eq_some h2]
                  simp
                have e3 : r2 = r2.takeWhile (fun c => decide (c ≠ '/')) ++
                    ('/' :: 'p' :: 'u' :: 'l' :: 'l' :: '/' :: r3) := by
                  conv_lhs => rw [← List.takeWhile_append_dropWhile
                    (p := fun c => decide (c ≠ '/')) (l := r2)]
                  rw [dropLit_eq_some h3]
                  simp
                have e4 : r3 = r3.takeWhile Char.isDigit ++ r3.dropWhile Char.isDigit :=
                  (List.takeWhile_append_dropWhile ..).symm
                dsimp only
                conv_lhs => rw [e1, e2, e3]
                conv_rhs => rw [← e4]
              · simpa using how
              · simpa using hrp
              · intro c hc
                simpa using List.mem_takeWhile_imp hc
              · intro c hc
                simpa using List.mem_takeWhile_imp hc
              · simpa using hds
              · intro c hc
                exact List.mem_takeWhile_imp hc
              · rfl

theorem ghMatchAt_of_shape (ow rp ds post : List Char)
    (how : ow ≠ []) (hrp : rp ≠ []) (hds : ds ≠ [])
    (how2 : ∀ c ∈ ow, c ≠ '/') (hrp2 : ∀ c ∈ rp, c ≠ '/')
    (hds2 : ∀ c ∈ ds, c.isDigit = true) :
    (ghMatchAt ("github.com/".data ++ (ow ++ ('/' :: (rp ++
      ('/' :: 'p' :: 'u' :: 'l' :: 'l' :: '/' :: (ds ++ post))))))).isSome = true := by
  have how2' : ∀ c ∈ ow, (fun c => decide (c ≠ '/')) c = true := fun c hc => by
    simp [how2 c hc]
  have hrp2' : ∀ c ∈ rp, (fun c => decide (c ≠ '/')) c = true := fun c hc => by
    simp [hrp2 c hc]
  unfold ghMatchAt
  rw [dropLit_self]
  dsimp only
  rw [takeWhile_all_append _ _ _ _ how2' (by decide),
    dropWhile_all_append _ _ _ _ how2' (by decide)]
  rw [if_neg how, dropLit_slash]
  dsimp only
  rw [takeWhile_all_append _ _ _ _ hrp2' (by decide),
    dropWhile_all_append _ _ _ _ hrp2' (by decide)]
  rw [if_neg hrp, dropLit_pull]
  dsimp only
  rw [takeWhile_append_all _ _ _ hds2]
  rw [if_neg (by simp [hds])]
  simp

theorem ghSearch_some_decomp {cs : List Char} {d : PrData} (h : ghSearch cs = some d) :
    ∃ pre suf, cs = pre ++ suf ∧ ghMatchAt suf = some d := by
  induction cs with
  | nil => exact ⟨[], [], rfl, h⟩
  | cons c cs ih =>
    unfold ghSearch at h
    split at h
    next d' heq =>
      injection h with h
      subst h
      exact ⟨[], c :: cs, rfl, heq⟩
    next heq =>
      obtain ⟨pre, suf, e, hm⟩ := ih h
      exact ⟨c :: pre, suf, by rw [e, List.cons_append], hm⟩

theorem ghSearch_isSome_of_suffix : ∀ (pre suf : List Char),
    (ghMatchAt suf).isSome = true → (ghSearch (pre ++ suf)).isSome = true := by
  intro pre
  induction pre with
  | nil =>
    intro suf h
    cases suf with
    | nil => simpa [ghSearch] using h
    | cons c cs =>
      rw [List.nil_append]
      unfold ghSearch
      split
      · simp
      next heq => simp [heq] at h
  | cons p ps ih =>
    intro suf h
    rw [List.cons_append]
    unfold ghSearch
    split
    · simp
    next heq => exact ih suf h

/-- Counterexample for C8: a URL of the claimed form whose digit run is
`0` parses with pull number 0, which is not positive; and a string
without the `https://` scheme prefix also parses, so acceptance is not
restricted to URLs of the claimed form. -/
theorem parse_url_nonpositive_and_schemeless :
    parseGitHubUrl "https://github.com/acme/widget/pull/0" = some ⟨"acme", "widget", 0⟩
    ∧ parseGitHubUrl "github.com/a/b/pull/7" = some ⟨"a", "b", 7⟩
    ∧ ¬ 0 < (0 : Nat) := by
  refine ⟨by decide, by decide, by decide⟩

/-- C8 (amended): parsing succeeds exactly on strings that contain, at
some position, `github.com/` followed by a nonempty slash-free owner,
a slash, a nonempty slash-free repo, `/pull/` and a nonempty digit run;
the parsed pull number is the numeric value of the matched digit run (a
nonnegative integer, zero included); the scheme and host prefix before
`github.com/` is not inspected; strings with no such substring yield
`none`.  The scenario-5 URL parses to `{acme, widget, 42}`. -/
theorem parse_url_characterization :
    parseGitHubUrl "https://github.com/acme/widget/pull/42" = some ⟨"acme", "widget", 42⟩
    ∧ (∀ (u : String) (d : PrData), parseGitHubUrl u = some d →
        ∃ pre ds rest, u.data = pre ++ ("github.com/".data ++ (d.owner.data ++ ('/' ::
            (d.repo.data ++ ('/' :: 'p' :: 'u' :: 'l' :: 'l' :: '/' :: (ds ++ rest))))))
          ∧ d.owner.data ≠ [] ∧ d.repo.data ≠ []
          ∧ (∀ c ∈ d.owner.data, c ≠ '/') ∧ (∀ c ∈ d.repo.data, c ≠ '/')
          ∧ ds ≠ [] ∧ (∀ c ∈ ds, c.isDigit = true) ∧ d.pull_number = natOfDigits ds)
    ∧ (∀ (u : String) (pre ow rp ds post : List Char),
        u.data = pre ++ ("github.com/".data ++ (ow ++ ('/' :: (rp ++
          ('/' :: 'p' :: 'u' :: 'l' :: 'l' :: '/' :: (ds ++ post)))))) →
        ow ≠ [] → rp ≠ [] → ds ≠ [] →
        (∀ c ∈ ow, c ≠ '/') → (∀ c ∈ rp, c ≠ '/') → (∀ c ∈ ds, c.isDigit = true) →
        (parseGitHubUrl u).isSome = true) := by
  refine ⟨by decide, ?_, ?_⟩
  · intro u d h
    obtain ⟨pre, suf, e, hm⟩ := ghSearch_some_decomp h
    obtain ⟨ds, rest, e2, h2⟩ := ghMatchAt_some_decomp hm
    exact ⟨pre, ds, rest, by rw [e, e2], h2⟩
  · intro u pre ow rp ds post he how hrp hds how2 hrp2 hds2
    unfold parseGitHubUrl
    rw [he]
    exact ghSearch_isSome_of_suffix pre _
      (ghMatchAt_of_shape ow rp ds post how hrp hds how2 hrp2 hds2)

/-- Witness for C8 (amended): the completeness direction at a concrete
schemeless string containing the pattern. -/
theorem parse_url_characterization_w :
    (parseGitHubUrl "see github.com/o/r/pull/9 now").isSome = true :=
  parse_url_characterization.2.2 "see github.com/o/r/pull/9 now"
    "see ".data "o".data "r".data "9".data " now".data
    (by decide) (by decide) (by decide) (by decide)
    (by decide) (by decide) (by decide)

/-- Counterexample for C9: the snapshot block for file `a` is present
(and located, with empty content) in the concatenated snapshots, yet the
operation fails with the snapshot-not-found error instead of passing the
clamped — here empty — window to the request: an empty capture is falsy,
so the `!match[1]` guard throws. -/
theorem located_empty_snapshot_fails :
    findFileBlock "--- File: a ---\n" "a" = some ""
    ∧ copilotSnippet "--- File: a ---\n" "a" 1 = .error "Could not find content for file: a" := by
  exact ⟨by decide, rfl⟩

/-- C9 (amended): when the file block cannot be located, or is located
with empty content, the operation fails with the snapshot-not-found
error and no snippet (in particular no empty snippet) is produced;
otherwise, for a finding line of at least 1, the snippet is exactly the
snapshot lines with one-based indices from `max 1 (line - 5)` through
`min N (line + 5)` — the finding's line with five lines of context on
each side, clamped to the file bounds — joined with newlines. -/
theorem snippet_window_behavior :
    (∀ (content file : String) (line : Int), findFileBlock content file = none →
      copilotSnippet content file line = .error ("Could not find content for file: " ++ file))
    ∧ (∀ (content file : String) (line : Int), findFileBlock content file = some "" →
      copilotSnippet content file line = .error ("Could not find content for file: " ++ file))
    ∧ (∀ (content file : String) (line : Int) (fc : String),
        1 ≤ line → findFileBlock content file = some fc → fc ≠ "" →
        copilotSnippet content file line =
          .ok (String.intercalate "\n" (((strLines fc).take
            ((min ((strLines fc).length : Int) (line + 5)).toNat)).drop
            ((max 1 (line - 5)).toNat - 1)))) := by
  refine ⟨?_, ?_, ?_⟩
  · intro content file line hf
    unfold copilotSnippet
    rw [hf]
  · intro content file line hf
    unfold copilotSnippet
    rw [hf]
    exact rfl
  · intro content file line fc hl hf hne
    unfold copilotSnippet
    rw [hf]
    dsimp only
    rw [if_neg hne]
    congr 1
    generalize strLines fc = lines
    unfold jsSlice jsSliceIdx
    rw [if_neg (by omega), if_neg (by omega)]
    have hA : min ((min ((lines.length : Int)) (line - 1 + 5 + 1)).toNat) lines.length
        = (min ((lines.length : Int)) (line + 5)).toNat := by omega
    rw [hA]
    have hS2 : (max 1 (line - 5)).toNat - 1 = (max 0 (line - 1 - 5)).toNat := by omega
    rw [hS2]
    rcases le_or_lt ((max 0 (line - 1 - 5)).toNat) lines.length with hle | hgt
    · rw [min_eq_left hle]
    · rw [min_eq_right hgt.le]
      rw [List.drop_eq_nil_of_le (by simp [List.length_take]),
        List.drop_eq_nil_of_le (by simp [List.length_take]; omega)]

/-- Witness for C9 (amended): the window clause at a concrete snapshot. -/
theorem snippet_window_behavior_w :
    copilotSnippet "--- File: w ---\nl1\nl2\nl3" "w" 2 =
      .ok (String.intercalate "\n" (((strLines "l1\nl2\nl3").take
        ((min ((strLines "l1\nl2\nl3").length : Int) ((2 : Int) + 5)).toNat)).drop
        ((max 1 ((2 : Int) - 5)).toNat - 1))) :=
  snippet_window_behavior.2.2 "--- File: w ---\nl1\nl2\nl3" "w" 2 "l1\nl2\nl3"
    (by decide) (by decide) (by decide)
